import Mathlib

/-!
Shallow embedding of the NullForge security auditor
(`security_auditor/src/auditor.py`) and proofs about its claimed behavior.

Modelling conventions:
* Machine strings whose content matters for evaluation are kept as `String`
  (Lean strings are lists of characters; we only ever use constructors and
  concatenation, which reduce).
* Regular-expression objects cannot be embedded; a compiled pattern is
  modelled as a `Matcher` returning the list of match positions on a line
  (`re.search` succeeds iff that list is nonempty), and `re.compile` as a
  function `CompileFn` that may fail (`none` models a raised exception).
* The Python interpreter state that matters (the `SecurityAuditor` instance
  fields `findings` and `finding_counter`) is threaded explicitly.
* `datetime.now()` is an input (`startTime`, `durationMs` parameters).
* `ast.parse`/`ast.walk` results are inputs: each file entry carries the
  walk-order node list, `none` modelling a `SyntaxError`.
-/

namespace NullForge

/-- The `Severity` enum of auditor.py. -/
inductive Severity where
  | critical
  | high
  | medium
  | low
  | info
deriving DecidableEq, Repr

/-- The `Severity.value` (the string payload of the Python enum). -/
def Severity.value : Severity → String
  | .critical => "critical"
  | .high => "high"
  | .medium => "medium"
  | .low => "low"
  | .info => "info"

/-- The `severity_order` dict used for sorting in `SecurityAuditor.scan`. -/
def severityOrder : Severity → Nat
  | .critical => 0
  | .high => 1
  | .medium => 2
  | .low => 3
  | .info => 4

/-- The `weights` dict of `AuditReport.risk_score`. -/
def weight : Severity → Nat
  | .critical => 25
  | .high => 15
  | .medium => 5
  | .low => 2
  | .info => 0

/-- The `Finding` dataclass. -/
structure Finding where
  id : String
  title : String
  severity : Severity
  category : String
  file_path : String
  line_number : Nat
  code_snippet : String
  description : String
  recommendation : String
  cwe_id : Option String := none
  owasp_category : Option String := none
deriving DecidableEq, Repr

/-! ### Finding ids: `f-string NF-{counter:04d}`

Decimal rendering is embedded with an explicit fuel-based digit function so
that it both evaluates by `decide` and supports an injectivity proof via a
decoding round trip. -/

/-- Little-endian decimal digits of `n`, with fuel (`fuel ≥ n` suffices). -/
def digitsAux : Nat → Nat → List Nat
  | 0, _ => []
  | _ + 1, 0 => []
  | fuel + 1, n + 1 => ((n + 1) % 10) :: digitsAux fuel ((n + 1) / 10)

/-- Little-endian decimal digits of `n`. -/
def decDigits (n : Nat) : List Nat := digitsAux n n

/-- A decimal digit as a character (`0 ↦ '0'`, …). -/
def digitChar (d : Nat) : Char := Char.ofNat (48 + d)

/-- Decimal character rendering of `n` (most significant digit first);
empty for `n = 0`, matching the zero-padded use below. -/
def natChars (n : Nat) : List Char := (decDigits n).reverse.map digitChar

/-- Left-pad with `'0'` to width 4 — the `:04d` format spec. -/
def pad4 (cs : List Char) : List Char := List.replicate (4 - cs.length) '0' ++ cs

/-- The `SecurityAuditor._generate_finding_id`: the id string for counter value
`n`, i.e. `f-string NF-{n:04d}`. -/
def formatId (n : Nat) : String := String.mk ('N' :: 'F' :: '-' :: pad4 (natChars n))

/-- Decode a decimal character list back to a number (left fold, as reading
the digits left to right). -/
def decodeChars (cs : List Char) : Nat := cs.foldl (fun a c => 10 * a + (c.toNat - 48)) 0

/-- Value of a little-endian digit list. -/
def fromDigits (ds : List Nat) : Nat := ds.foldr (fun d a => d + 10 * a) 0

theorem digitsAux_spec (fuel : Nat) : ∀ n, n ≤ fuel → fromDigits (digitsAux fuel n) = n := by
  induction fuel with
  | zero => intro n hn; interval_cases n; simp [digitsAux, fromDigits]
  | succ fuel ih =>
    intro n hn
    match n with
    | 0 => simp [digitsAux, fromDigits]
    | n + 1 =>
      have hdiv : (n + 1) / 10 ≤ fuel := by
        have h1 : (n + 1) / 10 < n + 1 := Nat.div_lt_self (Nat.succ_pos n) (by omega)
        omega
      have := ih ((n + 1) / 10) hdiv
      simp only [digitsAux, fromDigits, List.foldr_cons]
      change (n + 1) % 10 + 10 * fromDigits (digitsAux fuel ((n + 1) / 10)) = n + 1
      rw [this]
      omega

theorem fromDigits_decDigits (n : Nat) : fromDigits (decDigits n) = n :=
  digitsAux_spec n n (Nat.le_refl n)

theorem digitsAux_lt (fuel : Nat) : ∀ n, ∀ d ∈ digitsAux fuel n, d < 10 := by
  induction fuel with
  | zero => intro n d hd; simp [digitsAux] at hd
  | succ fuel ih =>
    intro n d hd
    match n with
    | 0 => simp [digitsAux] at hd
    | n + 1 =>
      simp only [digitsAux, List.mem_cons] at hd
      rcases hd with h | h
      · omega
      · exact ih _ d h

theorem decDigits_lt (n : Nat) : ∀ d ∈ decDigits n, d < 10 := digitsAux_lt n n

theorem toNat_digitChar {d : Nat} (hd : d < 10) : (digitChar d).toNat = 48 + d := by
  interval_cases d <;> decide

theorem decodeChars_natChars (n : Nat) : decodeChars (natChars n) = n := by
  have hlt := decDigits_lt n
  unfold decodeChars natChars
  rw [List.foldl_map, List.foldl_reverse]
  have : ∀ ds : List Nat, (∀ d ∈ ds, d < 10) →
      ds.foldr (fun x y => 10 * y + ((digitChar x).toNat - 48)) 0 = fromDigits ds := by
    intro ds hds
    induction ds with
    | nil => simp [fromDigits]
    | cons d rest ih =>
      have hd : d < 10 := hds d (List.mem_cons_self d rest)
      have hrest := ih (fun x hx => hds x (List.mem_cons_of_mem d hx))
      simp only [List.foldr_cons, fromDigits] at *
      rw [hrest, toNat_digitChar hd]
      omega
  rw [this (decDigits n) hlt, fromDigits_decDigits]

theorem decodeChars_pad4 (cs : List Char) : decodeChars (pad4 cs) = decodeChars cs := by
  unfold pad4 decodeChars
  rw [List.foldl_append]
  congr 1
  generalize 4 - cs.length = k
  induction k with
  | zero => simp
  | succ k ih => simpa [List.replicate_succ] using ih

theorem formatId_injective : Function.Injective formatId := by
  intro a b hab
  have hdata : ('N' :: 'F' :: '-' :: pad4 (natChars a)) =
      ('N' :: 'F' :: '-' :: pad4 (natChars b)) := congrArg String.data hab
  have hpad : pad4 (natChars a) = pad4 (natChars b) := by
    injection hdata with _ h1
    injection h1 with _ h2
    injection h2 with _ h3
  have := congrArg decodeChars hpad
  rwa [decodeChars_pad4, decodeChars_pad4, decodeChars_natChars, decodeChars_natChars] at this

/-- Decimal rendering of a positive number (used in f-string interpolations
such as the snippet line numbers). -/
def natStr (n : Nat) : String := String.mk (natChars n)

/-! ### Pattern registry and the textual scanner (`SecurityAuditor.scan_file`) -/

/-- One rule record of the `_load_security_patterns` registry. -/
structure Rule where
  pattern : String
  title : String
  severity : Severity
  description : String
  recommendation : String
  cwe : Option String := none
  owasp : Option String := none
deriving DecidableEq, Repr

/-- The registry: a mapping (insertion-ordered, as a Python dict) from
category name to its rule list. -/
abbrev Registry := List (String × List Rule)

/-- A compiled pattern, modelled by the list of positions at which it
matches a line.  `re.search` succeeds iff at least one match exists. -/
abbrev Matcher := String → List Nat

/-- The `re.compile`: may raise (modelled by `none`). -/
abbrev CompileFn := String → Option Matcher

/-- The `regex.search(line)` used as a boolean. -/
def searchHit (m : Matcher) (line : String) : Bool := !(m line).isEmpty

/-- The snippet built in `scan_file`:
`start = max(0, i-3)`, `end = min(len(lines), i+2)`,
`backslash-n joined lines (f-string {j}: {lines[j-1]} for j in range(start+1, end+1))`.
(Nat subtraction is truncated, which is exactly `max(0, i-3)`.) -/
def mkSnippet (lines : List String) (i : Nat) : String :=
  let start := i - 3
  let stop := min lines.length (i + 2)
  String.intercalate "\n"
    ((List.range' (start + 1) (stop - start)).map
      (fun j => natStr j ++ ": " ++ lines.getD (j - 1) ""))

/-- The `Finding(...)` record built on a pattern match in `scan_file`
(`idNum` is the counter value after `_generate_finding_id` incremented). -/
def textualFinding (category : String) (r : Rule) (relPath : String)
    (allLines : List String) (i idNum : Nat) : Finding :=
  { id := formatId idNum, title := r.title, severity := r.severity,
    category := category, file_path := relPath, line_number := i,
    code_snippet := mkSnippet allLines i, description := r.description,
    recommendation := r.recommendation, cwe_id := r.cwe,
    owasp_category := r.owasp }

/-- The inner `for i, line in enumerate(lines, 1)` loop of `scan_file` for one
compiled rule: `rest` is the remaining lines, `i` the 1-based number of the
first of them, `c` the current `finding_counter`. -/
def ruleLineScan (m : Matcher) (category : String) (r : Rule) (relPath : String)
    (allLines : List String) : List String → Nat → Nat → List Finding × Nat
  | [], _, c => ([], c)
  | line :: rest, i, c =>
    if searchHit m line then
      let (fs, c') := ruleLineScan m category r relPath allLines rest (i + 1) (c + 1)
      (textualFinding category r relPath allLines i (c + 1) :: fs, c')
    else
      ruleLineScan m category r relPath allLines rest (i + 1) c

/-- The `for pattern_def in patterns` loop of `scan_file` for one category.
`re.compile` runs here; a compile failure raises out of `scan_file`
(result `none`), keeping the counter increments already made. -/
def rulesScan (compile : CompileFn) (category : String) (relPath : String)
    (allLines : List String) : List Rule → Nat → Option (List Finding) × Nat
  | [], c => (some [], c)
  | r :: rs, c =>
    match compile r.pattern with
    | none => (none, c)
    | some m =>
      let (fs, c₁) := ruleLineScan m category r relPath allLines allLines 1 c
      match rulesScan compile category relPath allLines rs c₁ with
      | (none, c₂) => (none, c₂)
      | (some gs, c₂) => (some (fs ++ gs), c₂)

/-- The outer `for category, patterns in self.patterns.items()` loop of
`scan_file`. -/
def categoriesScan (compile : CompileFn) (relPath : String) (allLines : List String) :
    Registry → Nat → Option (List Finding) × Nat
  | [], c => (some [], c)
  | (cat, rules) :: rest, c =>
    match rulesScan compile cat relPath allLines rules c with
    | (none, c₁) => (none, c₁)
    | (some fs, c₁) =>
      match categoriesScan compile relPath allLines rest c₁ with
      | (none, c₂) => (none, c₂)
      | (some gs, c₂) => (some (fs ++ gs), c₂)

/-! ### Structural (AST) analysis (`SecurityAuditor._analyze_python_ast`) -/

/-- The AST node shapes the walker inspects (`ast.walk` order is an input). -/
inductive AstNode where
  | assertStmt (lineno : Nat)
  | exceptHandler (lineno : Nat) (hasType : Bool)
  | importStmt (lineno : Nat) (names : List String)
  | otherNode
deriving DecidableEq, Repr

/-- The finding for `isinstance(node, ast.Assert)`. -/
def assertFinding (relPath : String) (lineno : Nat) (idNum : Nat) : Finding :=
  { id := formatId idNum, title := "Security Assert Statement", severity := .low,
    category := "code_quality", file_path := relPath, line_number := lineno,
    code_snippet := natStr lineno ++ ": assert ...",
    description := "Assert statements are removed when Python runs with -O flag.",
    recommendation := "Use explicit if/raise for security checks.",
    cwe_id := some "CWE-617" }

/-- The finding for a bare `except` handler. -/
def bareExceptFinding (relPath : String) (lineno : Nat) (idNum : Nat) : Finding :=
  { id := formatId idNum, title := "Bare Except Clause", severity := .low,
    category := "code_quality", file_path := relPath, line_number := lineno,
    code_snippet := natStr lineno ++ ": except:",
    description := "Bare except catches all exceptions including KeyboardInterrupt.",
    recommendation := "Catch specific exceptions: except Exception:",
    cwe_id := some "CWE-396" }

/-- The finding for an `import pickle` alias. -/
def pickleFinding (relPath : String) (lineno : Nat) (idNum : Nat) : Finding :=
  { id := formatId idNum, title := "Pickle Deserialization Risk", severity := .medium,
    category := "injection", file_path := relPath, line_number := lineno,
    code_snippet := natStr lineno ++ ": " ++ "import pickle",
    description := "Pickle can execute arbitrary code during deserialization.",
    recommendation := "Use JSON or other safe serialization formats for untrusted data.",
    cwe_id := some "CWE-502", owasp_category := some "A08:2021" }

/-- The `for alias in node.names: if alias.name == "pickle"`. -/
def importAliasScan (relPath : String) (lineno : Nat) : List String → Nat → List Finding × Nat
  | [], c => ([], c)
  | nm :: rest, c =>
    if nm = "pickle" then
      let (fs, c') := importAliasScan relPath lineno rest (c + 1)
      (pickleFinding relPath lineno (c + 1) :: fs, c')
    else
      importAliasScan relPath lineno rest c

/-- Findings contributed by one walked node. -/
def nodeScan (relPath : String) : AstNode → Nat → List Finding × Nat
  | .assertStmt ln, c => ([assertFinding relPath ln (c + 1)], c + 1)
  | .exceptHandler ln hasType, c =>
    if hasType then ([], c) else ([bareExceptFinding relPath ln (c + 1)], c + 1)
  | .importStmt ln names, c => importAliasScan relPath ln names c
  | .otherNode, c => ([], c)

/-- The `for node in ast.walk(tree)`. -/
def walkScan (relPath : String) : List AstNode → Nat → List Finding × Nat
  | [], c => ([], c)
  | node :: rest, c =>
    let (fs, c₁) := nodeScan relPath node c
    let (gs, c₂) := walkScan relPath rest c₁
    (fs ++ gs, c₂)

/-- The `_analyze_python_ast`: a `SyntaxError` from `ast.parse` (`parsed = none`)
is caught and yields no findings. -/
def analyzePyAst (parsed : Option (List AstNode)) (relPath : String) (c : Nat) :
    List Finding × Nat :=
  match parsed with
  | none => ([], c)
  | some nodes => walkScan relPath nodes c

/-! ### Files and `scan_file` -/

/-- One file of the scanned tree.  `content` is the `read_text` result split
into lines (`none` models a raised read error); `pyAst` the `ast` parse
result in walk order (`none` models a `SyntaxError`). -/
structure FileEntry where
  relPath : String
  suffix : String
  content : Option (List String)
  pyAst : Option (List AstNode) := none
deriving Repr

/-- The `SecurityAuditor.scan_file`.  The own `try` around the read returns `[]`
on failure; a pattern-compile failure escapes (`none` in the first
component), with the counter mutations kept. -/
def scanFile (compile : CompileFn) (reg : Registry) (e : FileEntry) (c : Nat) :
    Option (List Finding) × Nat :=
  match e.content with
  | none => (some [], c)
  | some lines =>
    match categoriesScan compile e.relPath lines reg c with
    | (none, c₁) => (none, c₁)
    | (some fs, c₁) =>
      if e.suffix = ".py" then
        let (gs, c₂) := analyzePyAst e.pyAst e.relPath c₁
        (some (fs ++ gs), c₂)
      else
        (some fs, c₁)

/-! ### Dependency scanner (`SecurityAuditor.scan_dependencies`) -/

/-- A scanned project: the file tree plus the two well-known manifests.
`requirementsTxt`: `none` = absent; `some none` = present but `read_text()`
raises (unreadable or undecodable — this read has no handler in the source);
`some (some lines)` = readable, split into lines.
`packageJson`: `none` = absent; `some none` = present but `json.loads`
raised (swallowed); `some (some deps)` = the keys of
`dependencies ∪ devDependencies`. -/
structure Project where
  tree : List FileEntry
  requirementsTxt : Option (Option (List String)) := none
  packageJson : Option (Option (List String)) := none
deriving Repr

/-- The static `vulnerable_packages` table (pattern, title, severity). -/
def vulnerablePackages : List (String × String × Severity) :=
  [("django<3.2", "Django Security Update Required", .high),
   ("flask<2.0", "Flask Security Update Recommended", .medium),
   ("requests<2.20", "Requests CVE-2018-18074", .high),
   ("pyyaml<5.4", "PyYAML Arbitrary Code Execution", .critical),
   ("urllib3<1.26.5", "urllib3 CVE-2021-33503", .medium)]

/-- Python substring test `needle in hay`, over character lists. -/
def charsContain (needle hay : List Char) : Bool :=
  needle.isPrefixOf hay ||
    match hay with
    | [] => false
    | _ :: t => charsContain needle t

/-- The `needle in hay` on strings. -/
def containsSub (needle hay : String) : Bool := charsContain needle.toList hay.toList

/-- The `str.lower()` (per-character lowercasing). -/
def strLower (s : String) : String := String.mk (s.toList.map Char.toLower)

/-- The `vuln_pattern.split("<")[0]`: the part before the first `<`. -/
def pkgName (vp : String) : String := String.mk (vp.toList.takeWhile (fun ch => ch ≠ '<'))

/-- The `any(vuln_pattern.split("<")[0] in line.lower() for line in lines)`. -/
def reqLineMatch (vp : String) (reqLines : List String) : Bool :=
  reqLines.any (fun line => containsSub (pkgName vp) (strLower line))

/-- The finding built for one matched `vulnerable_packages` entry. -/
def reqFinding (vp title : String) (sev : Severity) (idNum : Nat) : Finding :=
  { id := formatId idNum, title := title, severity := sev,
    category := "dependencies", file_path := "requirements.txt", line_number := 1,
    code_snippet := "Check requirements.txt",
    description := "Potentially vulnerable dependency: " ++ vp,
    recommendation := "Update to the latest secure version.",
    cwe_id := some "CWE-1104", owasp_category := some "A06:2021" }

/-- The `for vuln_pattern, (title, severity) in vulnerable_packages.items()`
loop over `requirements.txt`. -/
def reqScan (reqLines : List String) : List (String × String × Severity) → Nat →
    List Finding × Nat
  | [], c => ([], c)
  | (vp, title, sev) :: rest, c =>
    if reqLineMatch vp reqLines then
      let (fs, c') := reqScan reqLines rest (c + 1)
      (reqFinding vp title sev (c + 1) :: fs, c')
    else
      reqScan reqLines rest c

/-- The `lodash in deps` finding for `package.json`. -/
def lodashFinding (idNum : Nat) : Finding :=
  { id := formatId idNum, title := "Check Lodash Version", severity := .info,
    category := "dependencies", file_path := "package.json", line_number := 1,
    code_snippet := "lodash in dependencies",
    description := "Lodash has had multiple CVEs. Ensure version is current.",
    recommendation := "Run \x27npm audit\x27 for detailed vulnerability check." }

/-- The `package.json` half of `scan_dependencies` (its `read_text` and
`json.loads` sit inside `try ... except: pass`, so failures yield nothing). -/
def pkgScan (pkg : Option (Option (List String))) (c₁ : Nat) : List Finding × Nat :=
  match pkg with
  | none => ([], c₁)
  | some none => ([], c₁)
  | some (some deps) =>
    if deps.contains "lodash" then ([lodashFinding (c₁ + 1)], c₁ + 1) else ([], c₁)

/-- The `SecurityAuditor.scan_dependencies`.  A malformed `package.json` is
swallowed by the bare `except: pass`, but the `requirements.txt` read
(`req_file.read_text()`, line 459) has no handler: a read failure raises out
of the whole function (first component `none`), before any finding is made
and before `package.json` is examined. -/
def scanDependencies (p : Project) (c : Nat) : Option (List Finding) × Nat :=
  match p.requirementsTxt with
  | some none => (none, c)
  | none =>
    let (pf, c₂) := pkgScan p.packageJson c
    (some pf, c₂)
  | some (some reqLines) =>
    let (rf, c₁) := reqScan reqLines vulnerablePackages c
    let (pf, c₂) := pkgScan p.packageJson c₁
    (some (rf ++ pf), c₂)

/-! ### The scan driver (`SecurityAuditor.scan`) -/

/-- The contents of the `extensions` set literal, in source order.  The set
is iterated inside `scan`; since iteration order of a Python string set is
hash-seed-randomized per process, the order actually used by one invocation
is an input of the model (the `extOrder` parameter below), of which this
list is one possible value. -/
def extensions : List String :=
  [".py", ".js", ".ts", ".jsx", ".tsx", ".java", ".go", ".rb", ".php"]

/-- The excluded directory components. -/
def excludedParts : List String :=
  ["node_modules", ".git", "__pycache__", "venv", ".venv",
   "target", "build", "dist", ".tox"]

/-- Split a character list at a separator (the components of a path). -/
def splitChars (sep : Char) (acc : List Char) : List Char → List (List Char)
  | [] => [acc.reverse]
  | c :: t => if c = sep then acc.reverse :: splitChars sep [] t else splitChars sep (c :: acc) t

/-- The components of `file_path.parts` for a relative path. -/
def pathParts (s : String) : List String := (splitChars '/' [] s.toList).map String.mk

/-- The `any(part in file_path.parts for part in [...])`. -/
def isExcluded (e : FileEntry) : Bool :=
  (pathParts e.relPath).any (fun part => excludedParts.contains part)

/-- The traversal order of the nested `for ext in extensions: for file_path in
rglob of star-ext` loops, after the excluded-directory `continue`; `extOrder`
is the iteration order of the `extensions` set in this process. -/
def filesVisit (extOrder : List String) (tree : List FileEntry) : List FileEntry :=
  extOrder.flatMap (fun ext => tree.filter (fun e => e.suffix = ext && !isExcluded e))

/-- The mutable scan-loop state: `self.findings`, `self.finding_counter`,
and the local `files_scanned` / `lines_scanned` counters. -/
structure ScanAcc where
  findings : List Finding
  counter : Nat
  filesScanned : Nat
  linesScanned : Nat
deriving Repr

/-- One iteration of the file loop in `scan`.  A read failure skips the file
before the counters are updated; an exception escaping `scan_file` is caught
by the bare `except: continue` after the counters were updated, discarding
the findings of that file but keeping the id-counter mutations. -/
def scanFileStep (compile : CompileFn) (reg : Registry) (acc : ScanAcc) (e : FileEntry) :
    ScanAcc :=
  match e.content with
  | none => acc
  | some lines =>
    let acc1 : ScanAcc :=
      { acc with linesScanned := acc.linesScanned + lines.length,
                 filesScanned := acc.filesScanned + 1 }
    match scanFile compile reg e acc.counter with
    | (none, c') => { acc1 with counter := c' }
    | (some fs, c') => { acc1 with findings := acc1.findings ++ fs, counter := c' }

/-- The whole file loop of `scan`. -/
def runFiles (extOrder : List String) (compile : CompileFn) (reg : Registry)
    (tree : List FileEntry) (acc : ScanAcc) : ScanAcc :=
  (filesVisit extOrder tree).foldl (scanFileStep compile reg) acc

/-- The `SecurityAuditor` instance state relevant to scanning
(`self.findings`, `self.finding_counter`); `__init__` zeroes both. -/
structure AuditorState where
  findings : List Finding
  counter : Nat
deriving DecidableEq, Repr

/-- The state set up by `SecurityAuditor.__init__`. -/
def initState : AuditorState := ⟨[], 0⟩

/-- All findings discovered by one `scan` call (file loop then dependency
scan), before sorting, together with the final counter value; first
component `none` when the dependency scan raises. -/
def discoverRun (extOrder : List String) (compile : CompileFn) (reg : Registry)
    (p : Project) (st : AuditorState) : Option (List Finding) × Nat :=
  let acc := runFiles extOrder compile reg p.tree ⟨st.findings, st.counter, 0, 0⟩
  match scanDependencies p acc.counter with
  | (none, c₂) => (none, c₂)
  | (some df, c₂) => (some (acc.findings ++ df), c₂)

/-- The `self.findings.sort(key=lambda f: severity_order[f.severity])` — the Python
sort is stable, and the stable sort by a five-valued key is the
concatenation of the fibers of the key in key order. -/
def sortFindings (fs : List Finding) : List Finding :=
  fs.filter (fun f => severityOrder f.severity == 0) ++
  fs.filter (fun f => severityOrder f.severity == 1) ++
  fs.filter (fun f => severityOrder f.severity == 2) ++
  fs.filter (fun f => severityOrder f.severity == 3) ++
  fs.filter (fun f => severityOrder f.severity == 4)

/-- The `AuditReport` dataclass (scan_time/duration modelled as numbers). -/
structure AuditReport where
  project_path : String
  scan_time : Nat
  duration_ms : Nat
  files_scanned : Nat
  lines_scanned : Nat
  findings : List Finding
deriving DecidableEq, Repr

/-- The `SecurityAuditor.scan`: returns the updated instance state (the
in-place sort leaves `self.findings` sorted) and the report, which shares
that list.  `extOrder` is the per-process iteration order of the
`extensions` set.  The call `self.findings.extend(self.scan_dependencies())`
at line 540 sits outside any `try`, so a raise from the dependency scan
escapes `scan` itself: result `none`, no report. -/
def scan (extOrder : List String) (compile : CompileFn) (reg : Registry)
    (projPath : String) (p : Project) (startTime durationMs : Nat)
    (st : AuditorState) : Option (AuditorState × AuditReport) :=
  match discoverRun extOrder compile reg p st with
  | (none, _) => none
  | (some allF, c₂) =>
    let acc := runFiles extOrder compile reg p.tree ⟨st.findings, st.counter, 0, 0⟩
    let sorted := sortFindings allF
    some (⟨sorted, c₂⟩,
      { project_path := projPath, scan_time := startTime, duration_ms := durationMs,
        files_scanned := acc.filesScanned, lines_scanned := acc.linesScanned,
        findings := sorted })

/-! ### Derived report values and serialization -/

/-- Count of findings of a given severity. -/
def countSev (fs : List Finding) (s : Severity) : Nat :=
  (fs.filter (fun f => f.severity == s)).length

/-- The `AuditReport.critical_count`. -/
def AuditReport.critical_count (r : AuditReport) : Nat := countSev r.findings .critical

/-- The `AuditReport.high_count`. -/
def AuditReport.high_count (r : AuditReport) : Nat := countSev r.findings .high

/-- The `AuditReport.risk_score`: 0 for no findings, else the weighted sum
clamped by `min(100, score)`. -/
def AuditReport.risk_score (r : AuditReport) : Nat :=
  if r.findings.isEmpty then 0
  else min 100 ((r.findings.map (fun f => weight f.severity)).sum)

/-- The `location` object of `Finding.to_dict`. -/
structure LocationDict where
  file : String
  line : Nat
deriving DecidableEq, Repr

/-- The `references` object of `Finding.to_dict`. -/
structure RefsDict where
  cwe : Option String
  owasp : Option String
deriving DecidableEq, Repr

/-- The `Finding.to_dict`. -/
structure FindingDict where
  id : String
  title : String
  severity : String
  category : String
  location : LocationDict
  code_snippet : String
  description : String
  recommendation : String
  references : RefsDict
deriving DecidableEq, Repr

/-- The `Finding.to_dict` construction. -/
def Finding.toDict (f : Finding) : FindingDict :=
  { id := f.id, title := f.title, severity := f.severity.value,
    category := f.category, location := ⟨f.file_path, f.line_number⟩,
    code_snippet := f.code_snippet, description := f.description,
    recommendation := f.recommendation, references := ⟨f.cwe_id, f.owasp_category⟩ }

/-- The `meta` object of `AuditReport.to_dict`. -/
structure MetaDict where
  project : String
  scan_time : Nat
  duration_ms : Nat
  files_scanned : Nat
  lines_scanned : Nat
deriving DecidableEq, Repr

/-- The `summary` object of `AuditReport.to_dict`. -/
structure SummaryDict where
  total_findings : Nat
  critical : Nat
  high : Nat
  medium : Nat
  low : Nat
  info : Nat
  risk_score : Nat
deriving DecidableEq, Repr

/-- The `AuditReport.to_dict` (the structured `--json` output). -/
structure ReportDict where
  meta : MetaDict
  summary : SummaryDict
  findings : List FindingDict
deriving DecidableEq, Repr

/-- The `AuditReport.to_dict` construction. -/
def AuditReport.toDict (r : AuditReport) : ReportDict :=
  { meta := ⟨r.project_path, r.scan_time, r.duration_ms, r.files_scanned, r.lines_scanned⟩,
    summary := ⟨r.findings.length, r.critical_count, r.high_count,
                countSev r.findings .medium, countSev r.findings .low,
                countSev r.findings .info, r.risk_score⟩,
    findings := r.findings.map Finding.toDict }

/-- The structured output with the `scan_time` and `duration_ms` fields
removed (everything the determinism property is about). -/
def stripTimes (d : ReportDict) :
    (String × Nat × Nat) × SummaryDict × List FindingDict :=
  ((d.meta.project, d.meta.files_scanned, d.meta.lines_scanned), d.summary, d.findings)

/-- The exit-code logic at the end of `main`. -/
def mainExitCode (r : AuditReport) : Nat :=
  if 0 < r.critical_count then 2
  else if 0 < r.high_count then 1
  else 0

/-! ### Derived notions the theorems quantify over -/

/-- Sequential-id discipline: running a scanner piece from counter `c`
produced `fs` and left the counter at `c'`, with consecutive ids
`formatId (c+1), …, formatId c'`. -/
def IdSeq (c : Nat) (fs : List Finding) (c' : Nat) : Prop :=
  c' = c + fs.length ∧
    fs.map Finding.id = (List.range' (c + 1) fs.length).map formatId

/-- The risk score as a function of the per-severity counts. -/
def riskOfCounts (c h m l : Nat) : Nat := min 100 (25 * c + 15 * h + 5 * m + 2 * l)

/-- The context window the code actually produces: lines
`max(1, i-2) .. min(L, i+2)`, each prefixed with its absolute number. -/
def clampWindow (lines : List String) (i : Nat) : String :=
  String.intercalate "\n"
    ((List.range' (max 1 (i - 2)) (min lines.length (i + 2) + 1 - max 1 (i - 2))).map
      (fun j => natStr j ++ ": " ++ lines.getD (j - 1) ""))

/-- The context window as the claim states it: clamp `[i-3, i+2]` to the
file bounds `[1, L]`.  (Stated from the spec's words, for comparison.) -/
def claimedWindow (lines : List String) (i : Nat) : String :=
  String.intercalate "\n"
    ((List.range' (max 1 (i - 3)) (min lines.length (i + 2) + 1 - max 1 (i - 3))).map
      (fun j => natStr j ++ ": " ++ lines.getD (j - 1) ""))

/-- Whether the (compiled) pattern of a rule matches a line. -/
def ruleHits (compile : CompileFn) (r : Rule) (line : String) : Bool :=
  match compile r.pattern with
  | none => false
  | some m => searchHit m line

/-- Number of registry rules (over all categories) whose pattern matches a
line. -/
def matchingRuleCount (compile : CompileFn) (reg : Registry) (line : String) : Nat :=
  (reg.map (fun cr => (cr.2.filter (fun r => ruleHits compile r line)).length)).sum

/-- A registry is well formed when every pattern of a rule compiles. -/
abbrev AllCompile (compile : CompileFn) (reg : Registry) : Prop :=
  ∀ cr ∈ reg, ∀ r ∈ cr.2, (compile r.pattern).isSome = true

/-- A placeholder finding (only used as a `getD` default in witnesses). -/
def dfFinding : Finding :=
  { id := "", title := "", severity := .info, category := "", file_path := "",
    line_number := 0, code_snippet := "", description := "", recommendation := "" }

/-! ### Concrete inputs used by witnesses and counterexamples -/

/-- A matcher that hits exactly the line `pw`. -/
def demoMatcher : Matcher := fun line => if line = "pw" then [0] else []

/-- A compile function defined on the single pattern `rx`. -/
def demoCompile : CompileFn := fun pat => if pat = "rx" then some demoMatcher else none

/-- A one-rule registry. -/
def demoReg : Registry :=
  [("secrets", [⟨"rx", "T", .critical, "D", "R", none, none⟩])]

/-- A one-file project whose single line matches the rule. -/
def demoProj : Project := { tree := [⟨"a.js", ".js", some ["pw"], none⟩] }

/-- A concrete report used to instantiate report-level theorems. -/
def demoReport : AuditReport :=
  { project_path := "p", scan_time := 0, duration_ms := 0, files_scanned := 1,
    lines_scanned := 2,
    findings := [{ dfFinding with id := "NF-0001", severity := .critical },
                 { dfFinding with id := "NF-0002", severity := .medium }] }

/-- Four lines; the matcher below hits line 4. -/
def c6Lines : List String := ["a", "b", "c", "d"]

/-- Matcher hitting exactly `d`. -/
def c6Matcher : Matcher := fun line => if line = "d" then [0] else []

/-- Compile function for the window demos. -/
def c6Compile : CompileFn := fun pat => if pat = "rx" then some c6Matcher else none

/-- One-rule registry for the window demos. -/
def c6Reg : Registry :=
  [("secrets", [⟨"rx", "T", .critical, "D", "R", none, none⟩])]

/-- The single finding the window demo produces (at line 4 of 4). -/
def c6Found : Finding :=
  ((categoriesScan c6Compile "f.js" c6Lines c6Reg 0).1.getD []).getD 0 dfFinding

/-- A compile function failing on the pattern `bad`. -/
def c7Compile : CompileFn :=
  fun pat => if pat = "rx" then some demoMatcher else none

/-- The rule whose pattern does not compile. -/
def c7BadRule : Rule := ⟨"bad", "B", .high, "D", "R", none, none⟩

/-- A category with one valid, matching rule followed by the bad rule. -/
def c7Entry : String × List Rule :=
  ("secrets", [⟨"rx", "T", .critical, "D", "R", none, none⟩, c7BadRule])

/-- A registry containing a non-compiling pattern. -/
def c7Reg : Registry := [c7Entry]

/-- Same single-file project, scanned with the broken registry. -/
def c7Proj : Project := { tree := [⟨"a.js", ".js", some ["pw"], none⟩] }

/-- One line that rule 1 matches twice and rule 2 matches once. -/
def c8Lines : List String := ["xx"]

/-- Compile function for the one-finding-per-line demo: pattern `r1`
matches the line at two positions, `r2` at one. -/
def c8Compile : CompileFn :=
  fun pat =>
    if pat = "r1" then some (fun line => if line = "xx" then [0, 1] else [])
    else if pat = "r2" then some (fun line => if line = "xx" then [1] else [])
    else none

/-- Two rules in one category. -/
def c8Reg : Registry :=
  [("secrets", [⟨"r1", "T1", .critical, "D", "R", none, none⟩,
                ⟨"r2", "T2", .high, "D", "R", none, none⟩])]

/-- A project whose `requirements.txt` matches the django entry on two lines
and whose `package.json` is present but malformed. -/
def c10Proj : Project :=
  { tree := [], requirementsTxt := some (some ["django==1.0", "pydjango>=2"]),
    packageJson := some none }

/-- The single dependency finding the demo project produces. -/
def c10Found : Finding := ((scanDependencies c10Proj 0).1.getD []).getD 0 dfFinding

/-- A placeholder report, only used as a `getD` default in closed statements. -/
def dfReport : AuditReport :=
  { project_path := "", scan_time := 0, duration_ms := 0, files_scanned := 0,
    lines_scanned := 0, findings := [] }

/-- A placeholder scan result, only used as a `getD` default. -/
def dfPair : AuditorState × AuditReport := (initState, dfReport)

/-- Another iteration order of the `extensions` set, as another process with
a different hash seed can produce (`.js` before `.py`). -/
def extOrderSwapped : List String :=
  [".js", ".py", ".ts", ".jsx", ".tsx", ".java", ".go", ".rb", ".php"]

/-- A project with one matching `.js` file and one matching `.py` file, so
the extension iteration order decides which finding gets `NF-0001`. -/
def c5Proj : Project :=
  { tree := [⟨"a.js", ".js", some ["pw"], none⟩, ⟨"b.py", ".py", some ["pw"], none⟩] }

/-- A project with a valid root and one matching file whose
`requirements.txt` is present but unreadable (the read raises). -/
def c9Proj : Project :=
  { tree := [⟨"a.js", ".js", some ["pw"], none⟩], requirementsTxt := some none }

/-- The same project with the unreadable manifest removed. -/
def c9ProjOk : Project := { tree := [⟨"a.js", ".js", some ["pw"], none⟩] }


/-! ## Theorems -/

/-! ### The stable severity sort (`SecurityAuditor.scan`, final sort) -/

theorem pairwise_of_mem_rel {α : Type} {R : α → α → Prop} :
    ∀ l : List α, (∀ x ∈ l, ∀ y ∈ l, R x y) → List.Pairwise R l := by
  intro l
  induction l with
  | nil => intro _; exact List.Pairwise.nil
  | cons a t ih =>
    intro h
    refine List.Pairwise.cons ?_ (ih ?_)
    · exact fun y hy => h a (List.mem_cons_self a t) y (List.mem_cons_of_mem a hy)
    · exact fun x hx y hy => h x (List.mem_cons_of_mem a hx) y (List.mem_cons_of_mem a hy)

theorem sortFindings_perm (fs : List Finding) : (sortFindings fs).Perm fs := by
  rw [List.perm_iff_count]
  intro y
  have hcf : ∀ k : Nat,
      List.count y (fs.filter (fun f => severityOrder f.severity == k)) =
        if severityOrder y.severity == k then List.count y fs else 0 := by
    intro k
    by_cases h : (severityOrder y.severity == k) = true
    · rw [if_pos h]
      exact List.count_filter h
    · rw [if_neg h]
      refine List.count_eq_zero.mpr ?_
      intro hy
      exact h (List.mem_filter.mp hy).2
  simp only [sortFindings, List.count_append, hcf]
  cases hs : y.severity <;> simp [severityOrder, hs]

theorem sortFindings_sorted (fs : List Finding) :
    List.Pairwise (fun a b => severityOrder a.severity ≤ severityOrder b.severity)
      (sortFindings fs) := by
  have hmem : ∀ (k : Nat) (f : Finding),
      f ∈ fs.filter (fun g => severityOrder g.severity == k) →
        severityOrder f.severity = k := by
    intro k f hf
    have := (List.mem_filter.mp hf).2
    exact beq_iff_eq.mp this
  have hblock : ∀ k : Nat,
      List.Pairwise (fun a b => severityOrder a.severity ≤ severityOrder b.severity)
        (fs.filter (fun g => severityOrder g.severity == k)) := by
    intro k
    refine pairwise_of_mem_rel _ ?_
    intro x hx y hy
    rw [hmem k x hx, hmem k y hy]
  unfold sortFindings
  simp only [List.append_assoc]
  rw [List.pairwise_append]
  refine ⟨hblock 0, ?_, ?_⟩
  · rw [List.pairwise_append]
    refine ⟨hblock 1, ?_, ?_⟩
    · rw [List.pairwise_append]
      refine ⟨hblock 2, ?_, ?_⟩
      · rw [List.pairwise_append]
        refine ⟨hblock 3, hblock 4, ?_⟩
        · intro a ha b hb
          rw [hmem 3 a ha, hmem 4 b hb]; omega
      · intro a ha b hb
        rcases List.mem_append.mp hb with h | h
        · rw [hmem 2 a ha, hmem 3 b h]; omega
        · rw [hmem 2 a ha, hmem 4 b h]; omega
    · intro a ha b hb
      rcases List.mem_append.mp hb with h | h
      · rw [hmem 1 a ha, hmem 2 b h]; omega
      rcases List.mem_append.mp h with h2 | h2
      · rw [hmem 1 a ha, hmem 3 b h2]; omega
      · rw [hmem 1 a ha, hmem 4 b h2]; omega
  · intro a ha b hb
    rcases List.mem_append.mp hb with h | h
    · rw [hmem 0 a ha, hmem 1 b h]; omega
    rcases List.mem_append.mp h with h2 | h2
    · rw [hmem 0 a ha, hmem 2 b h2]; omega
    rcases List.mem_append.mp h2 with h3 | h3
    · rw [hmem 0 a ha, hmem 3 b h3]; omega
    · rw [hmem 0 a ha, hmem 4 b h3]; omega

theorem filter_sev_of_rank (fs : List Finding) (s : Severity) (k : Nat) :
    (fs.filter (fun f => severityOrder f.severity == k)).filter (fun f => f.severity == s) =
      if severityOrder s = k then fs.filter (fun f => f.severity == s) else [] := by
  rw [List.filter_filter]
  split
  · next h =>
    refine List.filter_congr ?_
    intro f _
    by_cases hf : f.severity = s
    · simp [hf, h]
    · simp [hf]
  · next h =>
    refine List.filter_eq_nil_iff.mpr ?_
    intro f _
    by_cases hf : f.severity = s
    · simp [hf, h]
    · simp [hf]

theorem sortFindings_stable (fs : List Finding) (s : Severity) :
    (sortFindings fs).filter (fun f => f.severity == s) =
      fs.filter (fun f => f.severity == s) := by
  unfold sortFindings
  simp only [List.filter_append, filter_sev_of_rank]
  cases s <;> simp [severityOrder]

/-! ### Sequential id assignment -/

theorem IdSeq.refl_nil (c : Nat) : IdSeq c [] c := by
  constructor <;> simp

theorem IdSeq.append {c c₁ c₂ : Nat} {a b : List Finding}
    (h₁ : IdSeq c a c₁) (h₂ : IdSeq c₁ b c₂) : IdSeq c (a ++ b) c₂ := by
  obtain ⟨hl₁, hm₁⟩ := h₁
  obtain ⟨hl₂, hm₂⟩ := h₂
  constructor
  · simp only [List.length_append]; omega
  · rw [List.map_append, hm₁, hm₂, List.length_append, hl₁]
    rw [← List.map_append]
    congr 1
    have := List.range'_append (c + 1) a.length b.length 1
    simp only [Nat.one_mul] at this
    rw [Nat.add_comm b.length a.length] at this
    rw [← this]
    congr 2
    omega

theorem IdSeq.cons {c c' : Nat} {f : Finding} {fs : List Finding}
    (hf : f.id = formatId (c + 1)) (h : IdSeq (c + 1) fs c') : IdSeq c (f :: fs) c' := by
  have h1 : IdSeq c [f] (c + 1) := by
    constructor
    · simp
    · simp [hf, List.range'_one]
  simpa using IdSeq.append h1 h

theorem ruleLineScan_idseq (m : Matcher) (cat : String) (r : Rule) (rp : String)
    (all : List String) : ∀ (rest : List String) (i c : Nat),
    IdSeq c (ruleLineScan m cat r rp all rest i c).1 (ruleLineScan m cat r rp all rest i c).2 := by
  intro rest
  induction rest with
  | nil => intro i c; simp only [ruleLineScan]; exact IdSeq.refl_nil c
  | cons line rest ih =>
    intro i c
    simp only [ruleLineScan]
    split
    · rcases hrec : ruleLineScan m cat r rp all rest (i + 1) (c + 1) with ⟨fs, c'⟩
      simp only [hrec]
      have h := ih (i + 1) (c + 1)
      rw [hrec] at h
      exact IdSeq.cons rfl h
    · exact ih (i + 1) c

theorem rulesScan_idseq (compile : CompileFn) (cat : String) (rp : String)
    (all : List String) : ∀ (rs : List Rule) (c : Nat),
    (∀ r ∈ rs, (compile r.pattern).isSome = true) →
    ∃ fs c', rulesScan compile cat rp all rs c = (some fs, c') ∧ IdSeq c fs c' := by
  intro rs
  induction rs with
  | nil => intro c _; exact ⟨[], c, by simp [rulesScan], IdSeq.refl_nil c⟩
  | cons r rs ih =>
    intro c h
    obtain ⟨m, hm⟩ := Option.isSome_iff_exists.mp (h r (List.mem_cons_self r rs))
    rcases hrl : ruleLineScan m cat r rp all all 1 c with ⟨fs₁, c₁⟩
    obtain ⟨gs, c₂, heq, hseq⟩ := ih c₁ (fun x hx => h x (List.mem_cons_of_mem r hx))
    refine ⟨fs₁ ++ gs, c₂, ?_, ?_⟩
    · simp only [rulesScan, hm, hrl, heq]
    · have h1 := ruleLineScan_idseq m cat r rp all all 1 c
      rw [hrl] at h1
      exact IdSeq.append h1 hseq

theorem categoriesScan_idseq (compile : CompileFn) (rp : String) (all : List String) :
    ∀ (reg : Registry) (c : Nat), AllCompile compile reg →
    ∃ fs c', categoriesScan compile rp all reg c = (some fs, c') ∧ IdSeq c fs c' := by
  intro reg
  induction reg with
  | nil => intro c _; exact ⟨[], c, by simp [categoriesScan], IdSeq.refl_nil c⟩
  | cons cr rest ih =>
    intro c h
    rcases cr with ⟨cat, rules⟩
    have hrules : ∀ r ∈ rules, (compile r.pattern).isSome = true :=
      h (cat, rules) (List.mem_cons_self _ _)
    obtain ⟨fs₁, c₁, heq₁, hseq₁⟩ := rulesScan_idseq compile cat rp all rules c hrules
    obtain ⟨gs, c₂, heq₂, hseq₂⟩ := ih c₁ (fun cr hm => h cr (List.mem_cons_of_mem _ hm))
    refine ⟨fs₁ ++ gs, c₂, ?_, IdSeq.append hseq₁ hseq₂⟩
    simp only [categoriesScan, heq₁, heq₂]

theorem importAliasScan_idseq (rp : String) (ln : Nat) : ∀ (names : List String) (c : Nat),
    IdSeq c (importAliasScan rp ln names c).1 (importAliasScan rp ln names c).2 := by
  intro names
  induction names with
  | nil => intro c; simp only [importAliasScan]; exact IdSeq.refl_nil c
  | cons nm rest ih =>
    intro c
    simp only [importAliasScan]
    split
    · rcases hrec : importAliasScan rp ln rest (c + 1) with ⟨fs, c'⟩
      simp only [hrec]
      have h := ih (c + 1)
      rw [hrec] at h
      exact IdSeq.cons rfl h
    · exact ih c

theorem nodeScan_idseq (rp : String) (node : AstNode) (c : Nat) :
    IdSeq c (nodeScan rp node c).1 (nodeScan rp node c).2 := by
  cases node with
  | assertStmt ln => exact IdSeq.cons rfl (IdSeq.refl_nil (c + 1))
  | exceptHandler ln hasType =>
    simp only [nodeScan]
    split
    · exact IdSeq.refl_nil c
    · exact IdSeq.cons rfl (IdSeq.refl_nil (c + 1))
  | importStmt ln names => exact importAliasScan_idseq rp ln names c
  | otherNode => exact IdSeq.refl_nil c

theorem walkScan_idseq (rp : String) : ∀ (nodes : List AstNode) (c : Nat),
    IdSeq c (walkScan rp nodes c).1 (walkScan rp nodes c).2 := by
  intro nodes
  induction nodes with
  | nil => intro c; simp only [walkScan]; exact IdSeq.refl_nil c
  | cons node rest ih =>
    intro c
    rcases hn : nodeScan rp node c with ⟨fs, c₁⟩
    rcases hw : walkScan rp rest c₁ with ⟨gs, c₂⟩
    simp only [walkScan, hn, hw]
    have h1 := nodeScan_idseq rp node c
    rw [hn] at h1
    have h2 := ih c₁
    rw [hw] at h2
    exact IdSeq.append h1 h2

theorem analyzePyAst_idseq (parsed : Option (List AstNode)) (rp : String) (c : Nat) :
    IdSeq c (analyzePyAst parsed rp c).1 (analyzePyAst parsed rp c).2 := by
  cases parsed with
  | none => exact IdSeq.refl_nil c
  | some nodes => exact walkScan_idseq rp nodes c

theorem scanFile_idseq (compile : CompileFn) (reg : Registry) (e : FileEntry) (c : Nat)
    (hcomp : AllCompile compile reg) :
    ∃ fs c', scanFile compile reg e c = (some fs, c') ∧ IdSeq c fs c' := by
  rcases hc : e.content with _ | lines
  · exact ⟨[], c, by simp [scanFile, hc], IdSeq.refl_nil c⟩
  · obtain ⟨fs₁, c₁, heq₁, hseq₁⟩ := categoriesScan_idseq compile e.relPath lines reg c hcomp
    by_cases hpy : e.suffix = ".py"
    · rcases ha : analyzePyAst e.pyAst e.relPath c₁ with ⟨gs, c₂⟩
      refine ⟨fs₁ ++ gs, c₂, ?_, ?_⟩
      · simp only [scanFile, hc, heq₁, hpy, if_true, ha]
      · have h2 := analyzePyAst_idseq e.pyAst e.relPath c₁
        rw [ha] at h2
        exact IdSeq.append hseq₁ h2
    · exact ⟨fs₁, c₁, by simp only [scanFile, hc, heq₁, hpy, if_false], hseq₁⟩

theorem scanFileStep_idseq (compile : CompileFn) (reg : Registry)
    (hcomp : AllCompile compile reg) (acc : ScanAcc) (e : FileEntry)
    (h : IdSeq 0 acc.findings acc.counter) :
    IdSeq 0 (scanFileStep compile reg acc e).findings
      (scanFileStep compile reg acc e).counter := by
  rcases hc : e.content with _ | lines
  · simpa [scanFileStep, hc] using h
  · obtain ⟨fs, c', heq, hseq⟩ := scanFile_idseq compile reg e acc.counter hcomp
    simp only [scanFileStep, hc, heq]
    exact IdSeq.append h hseq

theorem foldl_scanFileStep_idseq (compile : CompileFn) (reg : Registry)
    (hcomp : AllCompile compile reg) :
    ∀ (es : List FileEntry) (acc : ScanAcc), IdSeq 0 acc.findings acc.counter →
    IdSeq 0 (es.foldl (scanFileStep compile reg) acc).findings
      (es.foldl (scanFileStep compile reg) acc).counter := by
  intro es
  induction es with
  | nil => intro acc h; simpa using h
  | cons e rest ih =>
    intro acc h
    simp only [List.foldl_cons]
    exact ih _ (scanFileStep_idseq compile reg hcomp acc e h)

theorem reqScan_idseq (reqLines : List String) :
    ∀ (tbl : List (String × String × Severity)) (c : Nat),
    IdSeq c (reqScan reqLines tbl c).1 (reqScan reqLines tbl c).2 := by
  intro tbl
  induction tbl with
  | nil => intro c; simp only [reqScan]; exact IdSeq.refl_nil c
  | cons e rest ih =>
    intro c
    rcases e with ⟨vp, title, sev⟩
    simp only [reqScan]
    split
    · rcases hrec : reqScan reqLines rest (c + 1) with ⟨fs, c'⟩
      simp only [hrec]
      have h := ih (c + 1)
      rw [hrec] at h
      exact IdSeq.cons rfl h
    · exact ih c

theorem pkgScan_idseq (pkg : Option (Option (List String))) (c : Nat) :
    IdSeq c (pkgScan pkg c).1 (pkgScan pkg c).2 := by
  rcases pkg with _ | op
  · exact IdSeq.refl_nil c
  · rcases op with _ | deps
    · exact IdSeq.refl_nil c
    · simp only [pkgScan]
      split
      · exact IdSeq.cons rfl (IdSeq.refl_nil (c + 1))
      · exact IdSeq.refl_nil c

theorem scanDependencies_idseq (p : Project) (c : Nat) :
    ∀ df c₂, scanDependencies p c = (some df, c₂) → IdSeq c df c₂ := by
  intro df c₂ h
  rcases hr : p.requirementsTxt with _ | or
  · rcases hpk : pkgScan p.packageJson c with ⟨pf, c'⟩
    simp only [scanDependencies, hr, hpk] at h
    obtain ⟨ha, hb⟩ := Prod.mk.inj h
    injection ha with ha
    subst ha
    subst hb
    have := pkgScan_idseq p.packageJson c
    rw [hpk] at this
    exact this
  · rcases or with _ | reqLines
    · simp only [scanDependencies, hr] at h
      simp at h
    · rcases hs : reqScan reqLines vulnerablePackages c with ⟨rf, c₁⟩
      rcases hpk : pkgScan p.packageJson c₁ with ⟨pf, c'⟩
      simp only [scanDependencies, hr, hs, hpk] at h
      obtain ⟨ha, hb⟩ := Prod.mk.inj h
      injection ha with ha
      subst ha
      subst hb
      have h1 := reqScan_idseq reqLines vulnerablePackages c
      rw [hs] at h1
      have h2 := pkgScan_idseq p.packageJson c₁
      rw [hpk] at h2
      exact IdSeq.append h1 h2

theorem discoverRun_init_idseq (extOrder : List String) (compile : CompileFn)
    (reg : Registry) (p : Project) (hcomp : AllCompile compile reg) :
    ∀ allF c₂, discoverRun extOrder compile reg p initState = (some allF, c₂) →
      IdSeq 0 allF c₂ := by
  intro allF c₂ h
  have hacc := foldl_scanFileStep_idseq compile reg hcomp (filesVisit extOrder p.tree)
    ⟨initState.findings, initState.counter, 0, 0⟩ (by constructor <;> simp [initState])
  rcases hd : scanDependencies p
      ((filesVisit extOrder p.tree).foldl (scanFileStep compile reg)
        ⟨initState.findings, initState.counter, 0, 0⟩).counter with ⟨o, c'⟩
  simp only [discoverRun, runFiles, hd] at h
  cases o with
  | none => simp at h
  | some df =>
    obtain ⟨ha, hb⟩ := Prod.mk.inj h
    injection ha with ha
    subst ha
    subst hb
    have h2 := scanDependencies_idseq p
      ((filesVisit extOrder p.tree).foldl (scanFileStep compile reg)
        ⟨initState.findings, initState.counter, 0, 0⟩).counter df c' hd
    exact IdSeq.append hacc h2

theorem scan_eq_of_discover (extOrder : List String) (compile : CompileFn)
    (reg : Registry) (path : String) (p : Project) (t d : Nat) (st : AuditorState)
    (allF : List Finding) (c₂ : Nat)
    (hd : discoverRun extOrder compile reg p st = (some allF, c₂)) :
    scan extOrder compile reg path p t d st =
      some (⟨sortFindings allF, c₂⟩,
        { project_path := path, scan_time := t, duration_ms := d,
          files_scanned := (runFiles extOrder compile reg p.tree
            ⟨st.findings, st.counter, 0, 0⟩).filesScanned,
          lines_scanned := (runFiles extOrder compile reg p.tree
            ⟨st.findings, st.counter, 0, 0⟩).linesScanned,
          findings := sortFindings allF }) := by
  simp [scan, hd]

/-- C1: for every scan that returns a report (whatever the per-process
iteration order of the extensions set), the findings of that report are
sorted by severity rank ascending (any two adjacent findings have
non-decreasing rank), and within each severity the relative discovery order
(the pre-sort order produced by the scanners) is preserved — the sort is
stable and never re-orders by file path or title. -/
theorem scan_sorted_by_severity_stable (extOrder : List String) (compile : CompileFn)
    (reg : Registry) (path : String) (p : Project) (t d : Nat) (st : AuditorState)
    (stRep : AuditorState × AuditReport)
    (h : scan extOrder compile reg path p t d st = some stRep) :
    List.Chain' (fun a b => severityOrder a.severity ≤ severityOrder b.severity)
      stRep.2.findings ∧
    ∀ s : Severity,
      stRep.2.findings.filter (fun f => f.severity == s) =
        ((discoverRun extOrder compile reg p st).1.getD []).filter
          (fun f => f.severity == s) := by
  rcases hd : discoverRun extOrder compile reg p st with ⟨o, c₂⟩
  cases o with
  | none => simp [scan, hd] at h
  | some allF =>
    rw [scan_eq_of_discover extOrder compile reg path p t d st allF c₂ hd] at h
    injection h with h
    subst h
    refine ⟨(sortFindings_sorted allF).chain', ?_⟩
    intro s
    simpa using sortFindings_stable allF s

theorem scan_sorted_by_severity_stable_witness :
    (scan extensions demoCompile demoReg "p" demoProj 0 0 initState =
      some ((scan extensions demoCompile demoReg "p" demoProj 0 0 initState).getD dfPair)) ∧
    (List.Chain' (fun a b => severityOrder a.severity ≤ severityOrder b.severity)
        ((scan extensions demoCompile demoReg "p" demoProj 0 0
            initState).getD dfPair).2.findings ∧
      ∀ s : Severity,
        ((scan extensions demoCompile demoReg "p" demoProj 0 0
            initState).getD dfPair).2.findings.filter (fun f => f.severity == s) =
          ((discoverRun extensions demoCompile demoReg demoProj initState).1.getD []).filter
            (fun f => f.severity == s)) :=
  ⟨by decide,
   scan_sorted_by_severity_stable extensions demoCompile demoReg "p" demoProj 0 0 initState
     ((scan extensions demoCompile demoReg "p" demoProj 0 0 initState).getD dfPair)
     (by decide)⟩

/-- C2: with the patterns of the registry all compiling (as those of the
real registry do), a scan from a fresh auditor discovers findings whose ids
are exactly `NF-0001 .. NF-000N` in discovery order with no gaps or
repeats — relative to the iteration order of the extensions set this
process uses — and the final severity sort only permutes the finding
records, reassigning or mutating no id. -/
theorem scan_ids_sequential (extOrder : List String) (compile : CompileFn)
    (reg : Registry) (path : String) (p : Project) (t d : Nat)
    (hcomp : AllCompile compile reg) (allF : List Finding) (c₂ : Nat)
    (hd : discoverRun extOrder compile reg p initState = (some allF, c₂)) :
    allF.map Finding.id = (List.range' 1 allF.length).map formatId ∧
    (allF.map Finding.id).Nodup ∧
    ∀ stRep, scan extOrder compile reg path p t d initState = some stRep →
      stRep.2.findings.Perm allF := by
  obtain ⟨-, hm⟩ := discoverRun_init_idseq extOrder compile reg p hcomp allF c₂ hd
  refine ⟨by simpa using hm, ?_, ?_⟩
  · rw [hm]
    simp only [Nat.zero_add]
    exact (List.nodup_range' _ _).map formatId_injective
  · intro stRep h
    rw [scan_eq_of_discover extOrder compile reg path p t d initState allF c₂ hd] at h
    injection h with h
    subst h
    exact sortFindings_perm allF

theorem scan_ids_sequential_witness :
    (AllCompile demoCompile demoReg ∧
      discoverRun extensions demoCompile demoReg demoProj initState =
        (some ((discoverRun extensions demoCompile demoReg demoProj initState).1.getD []),
          (discoverRun extensions demoCompile demoReg demoProj initState).2)) ∧
    (((discoverRun extensions demoCompile demoReg demoProj initState).1.getD
          []).map Finding.id =
        (List.range' 1 ((discoverRun extensions demoCompile demoReg demoProj
            initState).1.getD []).length).map formatId ∧
      (((discoverRun extensions demoCompile demoReg demoProj initState).1.getD
          []).map Finding.id).Nodup ∧
      ∀ stRep, scan extensions demoCompile demoReg "p" demoProj 0 0 initState = some stRep →
        stRep.2.findings.Perm
          ((discoverRun extensions demoCompile demoReg demoProj initState).1.getD [])) :=
  ⟨⟨by decide, by decide⟩,
   scan_ids_sequential extensions demoCompile demoReg "p" demoProj 0 0 (by decide)
     ((discoverRun extensions demoCompile demoReg demoProj initState).1.getD [])
     ((discoverRun extensions demoCompile demoReg demoProj initState).2)
     (by decide)⟩

/-! ### Risk score (C3) -/

theorem countSev_cons (f : Finding) (fs : List Finding) (s : Severity) :
    countSev (f :: fs) s = (if f.severity = s then 1 else 0) + countSev fs s := by
  by_cases h : f.severity = s <;> simp [countSev, List.filter_cons, h, Nat.add_comm]

theorem weight_sum (fs : List Finding) :
    (fs.map (fun f => weight f.severity)).sum =
      25 * countSev fs .critical + 15 * countSev fs .high +
        5 * countSev fs .medium + 2 * countSev fs .low := by
  induction fs with
  | nil => simp [countSev]
  | cons f fs ih =>
    simp only [List.map_cons, List.sum_cons, ih, countSev_cons]
    cases hs : f.severity <;> simp [weight] <;> omega

/-- C3: the risk score is the weighted sum of the per-severity counts with
the fixed weights 25/15/5/2/0 (strictly decreasing CRITICAL→LOW, 0 for
INFO), clamped to [0, 100]; it is therefore at most 100 and monotonically
non-decreasing in each of the CRITICAL/HIGH/MEDIUM/LOW counts. -/
theorem risk_score_weighted_clamped_monotone (r : AuditReport) :
    r.risk_score = riskOfCounts (countSev r.findings .critical) (countSev r.findings .high)
        (countSev r.findings .medium) (countSev r.findings .low) ∧
    r.risk_score ≤ 100 ∧
    (∀ a b u v w, a ≤ b → riskOfCounts a u v w ≤ riskOfCounts b u v w) ∧
    (∀ u a b v w, a ≤ b → riskOfCounts u a v w ≤ riskOfCounts u b v w) ∧
    (∀ u v a b w, a ≤ b → riskOfCounts u v a w ≤ riskOfCounts u v b w) ∧
    (∀ u v w a b, a ≤ b → riskOfCounts u v w a ≤ riskOfCounts u v w b) ∧
    weight .info = 0 ∧ weight .low < weight .medium ∧
    weight .medium < weight .high ∧ weight .high < weight .critical := by
  refine ⟨?_, ?_, ?_, ?_, ?_, ?_, by decide, by decide, by decide, by decide⟩
  · by_cases he : r.findings.isEmpty
    · have h0 : r.findings = [] := by
        cases hfs : r.findings
        · rfl
        · rw [hfs] at he; simp at he
      simp [AuditReport.risk_score, he, h0, countSev, riskOfCounts]
    · simp only [AuditReport.risk_score, he, if_false, Bool.false_eq_true]
      rw [weight_sum]
      rfl
  · unfold AuditReport.risk_score
    split
    · omega
    · exact min_le_left 100 _
  · intro a b u v w hab; unfold riskOfCounts; exact min_le_min (le_refl 100) (by omega)
  · intro u a b v w hab; unfold riskOfCounts; exact min_le_min (le_refl 100) (by omega)
  · intro u v a b w hab; unfold riskOfCounts; exact min_le_min (le_refl 100) (by omega)
  · intro u v w a b hab; unfold riskOfCounts; exact min_le_min (le_refl 100) (by omega)

theorem risk_score_weighted_clamped_monotone_witness :
    (demoReport.risk_score =
        riskOfCounts (countSev demoReport.findings .critical)
          (countSev demoReport.findings .high) (countSev demoReport.findings .medium)
          (countSev demoReport.findings .low)) ∧
    demoReport.risk_score ≤ 100 ∧
    (0 ≤ 1 ∧ riskOfCounts 0 2 3 4 ≤ riskOfCounts 1 2 3 4) :=
  ⟨(risk_score_weighted_clamped_monotone demoReport).1,
   (risk_score_weighted_clamped_monotone demoReport).2.1,
   by decide,
   (risk_score_weighted_clamped_monotone demoReport).2.2.1 0 1 2 3 4 (by decide)⟩

/-! ### Exit code (C4) -/

theorem countSev_pos_iff (fs : List Finding) (s : Severity) :
    0 < countSev fs s ↔ ∃ f ∈ fs, f.severity = s := by
  unfold countSev
  rw [← List.countP_eq_length_filter, List.countP_pos_iff]
  simp

/-- C4: the exit code computed at the end of `main` is 0 iff the report has
no CRITICAL and no HIGH finding, 1 iff it has a HIGH finding but no
CRITICAL one, and 2 iff it has at least one CRITICAL finding. -/
theorem exit_code_severity_gate (r : AuditReport) :
    (mainExitCode r = 0 ↔ ∀ f ∈ r.findings, f.severity ≠ .critical ∧ f.severity ≠ .high) ∧
    (mainExitCode r = 1 ↔
      (∃ f ∈ r.findings, f.severity = .high) ∧ ∀ f ∈ r.findings, f.severity ≠ .critical) ∧
    (mainExitCode r = 2 ↔ ∃ f ∈ r.findings, f.severity = .critical) := by
  have hcrit := countSev_pos_iff r.findings .critical
  have hhigh := countSev_pos_iff r.findings .high
  by_cases hc : 0 < countSev r.findings .critical
  · obtain ⟨f, hf, hfs⟩ := hcrit.mp hc
    have hmc : mainExitCode r = 2 := by
      simp [mainExitCode, AuditReport.critical_count, hc]
    rw [hmc]
    refine ⟨⟨fun h => absurd h (by omega), fun hall => absurd hfs ((hall f hf).1)⟩,
            ⟨fun h => absurd h (by omega), fun hx => absurd hfs (hx.2 f hf)⟩,
            ⟨fun _ => ⟨f, hf, hfs⟩, fun _ => rfl⟩⟩
  · have hnocrit : ∀ f ∈ r.findings, f.severity ≠ .critical :=
      fun f hf hfs => hc (hcrit.mpr ⟨f, hf, hfs⟩)
    by_cases hh : 0 < countSev r.findings .high
    · obtain ⟨f, hf, hfs⟩ := hhigh.mp hh
      have hmc : mainExitCode r = 1 := by
        simp [mainExitCode, AuditReport.critical_count, AuditReport.high_count, hc, hh]
      rw [hmc]
      refine ⟨⟨fun h => absurd h (by omega), fun hall => absurd hfs ((hall f hf).2)⟩,
              ⟨fun _ => ⟨⟨f, hf, hfs⟩, hnocrit⟩, fun _ => rfl⟩,
              ⟨fun h => absurd h (by omega),
               fun hx => by obtain ⟨g, hg, hgs⟩ := hx; exact absurd hgs (hnocrit g hg)⟩⟩
    · have hnohigh : ∀ f ∈ r.findings, f.severity ≠ .high :=
        fun f hf hfs => hh (hhigh.mpr ⟨f, hf, hfs⟩)
      have hmc : mainExitCode r = 0 := by
        simp [mainExitCode, AuditReport.critical_count, AuditReport.high_count, hc, hh]
      rw [hmc]
      refine ⟨⟨fun _ => fun f hf => ⟨hnocrit f hf, hnohigh f hf⟩, fun _ => rfl⟩,
              ⟨fun h => absurd h (by omega),
               fun hx => by obtain ⟨⟨g, hg, hgs⟩, _⟩ := hx; exact absurd hgs (hnohigh g hg)⟩,
              ⟨fun h => absurd h (by omega),
               fun hx => by obtain ⟨g, hg, hgs⟩ := hx; exact absurd hgs (hnocrit g hg)⟩⟩

/-! ### Determinism (C5) -/

/-- C5 (amended): within one process the iteration order of the extensions
set is fixed; given that order and equal (freshly constructed) auditor
states, two `scan` invocations over the same project return identical
structured output apart from the `scan_time`/`duration_ms` meta fields,
whatever the clock readings.  Across processes the set order is
hash-randomized, and the order genuinely matters: two orders of the same
extension set swap cross-extension discovery, changing finding ids and
within-severity order, as the closing inequality shows on a two-file
project. -/
theorem scan_deterministic_modulo_times :
    (∀ (extOrder : List String) (compile : CompileFn) (reg : Registry) (path : String)
        (p : Project) (t₁ d₁ t₂ d₂ : Nat) (st : AuditorState),
      (scan extOrder compile reg path p t₁ d₁ st).map (fun x => stripTimes x.2.toDict) =
        (scan extOrder compile reg path p t₂ d₂ st).map (fun x => stripTimes x.2.toDict)) ∧
    extOrderSwapped.Perm extensions ∧
    (scan extensions demoCompile demoReg "p" c5Proj 0 0 initState).map
        (fun x => stripTimes x.2.toDict) ≠
      (scan extOrderSwapped demoCompile demoReg "p" c5Proj 0 0 initState).map
        (fun x => stripTimes x.2.toDict) := by
  refine ⟨?_, List.Perm.swap (".py" : String) ".js" _, by decide⟩
  intro extOrder compile reg path p t₁ d₁ t₂ d₂ st
  rcases hd : discoverRun extOrder compile reg p st with ⟨o, c₂⟩
  cases o with
  | none => simp [scan, hd]
  | some allF =>
    rw [scan_eq_of_discover extOrder compile reg path p t₁ d₁ st allF c₂ hd,
        scan_eq_of_discover extOrder compile reg path p t₂ d₂ st allF c₂ hd]
    simp [stripTimes, AuditReport.toDict, AuditReport.critical_count,
          AuditReport.high_count, AuditReport.risk_score]

/-- C5 counterexample: on the same auditor instance, a second `scan()` call
does not reproduce the first report — `self.findings` and the id counter
persist, so the findings (not merely the time fields) differ. -/
theorem scan_rescan_not_identical :
    (scan extensions demoCompile demoReg "p" demoProj 0 0
        ((scan extensions demoCompile demoReg "p" demoProj 0 0
            initState).getD dfPair).1).map (fun x => stripTimes x.2.toDict) ≠
      (scan extensions demoCompile demoReg "p" demoProj 0 0 initState).map
        (fun x => stripTimes x.2.toDict) := by
  decide

/-! ### The snippet window (C6) -/

theorem mkSnippet_eq_clampWindow (lines : List String) (i : Nat) :
    mkSnippet lines i = clampWindow lines i := by
  simp only [mkSnippet, clampWindow]
  rw [show max 1 (i - 2) = i - 3 + 1 by omega,
      show min lines.length (i + 2) + 1 - (i - 3 + 1) = min lines.length (i + 2) - (i - 3) by
        omega]

theorem ruleLineScan_snippet (m : Matcher) (cat : String) (r : Rule) (rp : String)
    (all : List String) : ∀ (rest : List String) (i c : Nat) (f : Finding),
    f ∈ (ruleLineScan m cat r rp all rest i c).1 →
    f.code_snippet = mkSnippet all f.line_number := by
  intro rest
  induction rest with
  | nil => intro i c f hf; simp [ruleLineScan] at hf
  | cons line rest ih =>
    intro i c f hf
    simp only [ruleLineScan] at hf
    by_cases hhit : searchHit m line = true
    · rw [if_pos hhit] at hf
      rcases hrec : ruleLineScan m cat r rp all rest (i + 1) (c + 1) with ⟨fs, c'⟩
      rw [hrec] at hf
      simp only [List.mem_cons] at hf
      rcases hf with hf | hf
      · subst hf; rfl
      · have := ih (i + 1) (c + 1) f
        rw [hrec] at this
        exact this hf
    · rw [if_neg hhit] at hf
      exact ih (i + 1) c f hf

theorem rulesScan_snippet (compile : CompileFn) (cat : String) (rp : String)
    (all : List String) : ∀ (rs : List Rule) (c : Nat) (fs : List Finding) (c' : Nat),
    rulesScan compile cat rp all rs c = (some fs, c') →
    ∀ f ∈ fs, f.code_snippet = mkSnippet all f.line_number := by
  intro rs
  induction rs with
  | nil =>
    intro c fs c' heq f hf
    simp only [rulesScan] at heq
    obtain ⟨ha, -⟩ := Prod.mk.inj heq
    injection ha with ha
    rw [← ha] at hf
    simp at hf
  | cons r rs ih =>
    intro c fs c' heq f hf
    cases hc : compile r.pattern with
    | none => simp [rulesScan, hc] at heq
    | some m =>
      rcases hrl : ruleLineScan m cat r rp all all 1 c with ⟨fs₁, c₁⟩
      rcases hrec : rulesScan compile cat rp all rs c₁ with ⟨o, c₂⟩
      simp only [rulesScan, hc, hrl, hrec] at heq
      cases o with
      | none => simp at heq
      | some gs =>
        simp only [] at heq
        obtain ⟨ha, -⟩ := Prod.mk.inj heq
        injection ha with ha
        rw [← ha] at hf
        rcases List.mem_append.mp hf with h | h
        · have := ruleLineScan_snippet m cat r rp all all 1 c f
          rw [hrl] at this
          exact this h
        · exact ih c₁ gs c₂ hrec f h

theorem categoriesScan_snippet (compile : CompileFn) (rp : String) (all : List String) :
    ∀ (reg : Registry) (c : Nat) (fs : List Finding) (c' : Nat),
    categoriesScan compile rp all reg c = (some fs, c') →
    ∀ f ∈ fs, f.code_snippet = mkSnippet all f.line_number := by
  intro reg
  induction reg with
  | nil =>
    intro c fs c' heq f hf
    simp only [categoriesScan] at heq
    obtain ⟨ha, -⟩ := Prod.mk.inj heq
    injection ha with ha
    rw [← ha] at hf
    simp at hf
  | cons cr rest ih =>
    intro c fs c' heq f hf
    rcases cr with ⟨cat, rules⟩
    rcases hrs : rulesScan compile cat rp all rules c with ⟨o₁, c₁⟩
    cases o₁ with
    | none => simp only [categoriesScan, hrs] at heq; simp at heq
    | some fs₁ =>
      rcases hrec : categoriesScan compile rp all rest c₁ with ⟨o₂, c₂⟩
      simp only [categoriesScan, hrs, hrec] at heq
      cases o₂ with
      | none => simp at heq
      | some gs =>
        simp only [] at heq
        obtain ⟨ha, -⟩ := Prod.mk.inj heq
        injection ha with ha
        rw [← ha] at hf
        rcases List.mem_append.mp hf with h | h
        · exact rulesScan_snippet compile cat rp all rules c fs₁ c₁ hrs f h
        · exact ih c₁ gs c₂ hrec f h

/-- C6 (amended): every finding produced by the textual scanner carries as
`code_snippet` the window of lines `[max(1, i-2), min(L, i+2)]` around its
match line `i` — i.e. the clamp of `[i-2, i+2]`, not of `[i-3, i+2]` — each
included line prefixed with its absolute 1-indexed number. -/
theorem snippet_window_clamped (compile : CompileFn) (reg : Registry) (rp : String)
    (lines : List String) (c : Nat) (f : Finding)
    (hf : f ∈ ((categoriesScan compile rp lines reg c).1.getD [])) :
    f.code_snippet = clampWindow lines f.line_number := by
  rcases h : categoriesScan compile rp lines reg c with ⟨o, c'⟩
  rw [h] at hf
  cases o with
  | none => simp at hf
  | some fs =>
    simp only [Option.getD_some] at hf
    rw [← mkSnippet_eq_clampWindow]
    exact categoriesScan_snippet compile rp lines reg c fs c' h f hf

theorem snippet_window_clamped_witness :
    (c6Found ∈ ((categoriesScan c6Compile "f.js" c6Lines c6Reg 0).1.getD [])) ∧
    c6Found.code_snippet = clampWindow c6Lines c6Found.line_number :=
  ⟨by decide, snippet_window_clamped c6Compile c6Reg "f.js" c6Lines 0 c6Found (by decide)⟩

/-- C6 counterexample: the finding produced at line 4 of a 4-line file has a
snippet starting at line 2, not the claimed clamp of `[i-3, i+2]` (which
would start at line 1). -/
theorem snippet_window_not_minus3 :
    ((categoriesScan c6Compile "f.js" c6Lines c6Reg 0).1.getD []).all
        (fun f => f.code_snippet == claimedWindow c6Lines f.line_number) = false := by
  decide

/-! ### Pattern-compile failure behaviour (C7) -/

theorem rulesScan_fails (compile : CompileFn) (cat : String) (rp : String)
    (all : List String) : ∀ (rs : List Rule) (c : Nat) (r : Rule), r ∈ rs →
    compile r.pattern = none → (rulesScan compile cat rp all rs c).1 = none := by
  intro rs
  induction rs with
  | nil => intro c r hr; simp at hr
  | cons r₀ rs ih =>
    intro c r hr hnone
    rcases List.mem_cons.mp hr with h | h
    · subst h; simp [rulesScan, hnone]
    · cases hc : compile r₀.pattern with
      | none => simp [rulesScan, hc]
      | some m =>
        rcases hrl : ruleLineScan m cat r₀ rp all all 1 c with ⟨fs₁, c₁⟩
        rcases hrec : rulesScan compile cat rp all rs c₁ with ⟨o, c₂⟩
        have ho := ih c₁ r h hnone
        rw [hrec] at ho
        simp only at ho
        subst ho
        simp [rulesScan, hc, hrl, hrec]

theorem categoriesScan_fails (compile : CompileFn) (rp : String) (all : List String) :
    ∀ (reg : Registry) (c : Nat) (catrules : String × List Rule) (r : Rule),
    catrules ∈ reg → r ∈ catrules.2 → compile r.pattern = none →
    (categoriesScan compile rp all reg c).1 = none := by
  intro reg
  induction reg with
  | nil => intro c catrules r hm; simp at hm
  | cons cr rest ih =>
    intro c catrules r hm hr hnone
    rcases cr with ⟨cat₀, rules₀⟩
    rcases List.mem_cons.mp hm with h | h
    · subst h
      have := rulesScan_fails compile cat₀ rp all rules₀ c r hr hnone
      rcases hrs : rulesScan compile cat₀ rp all rules₀ c with ⟨o, c₁⟩
      rw [hrs] at this
      simp only at this
      subst this
      simp [categoriesScan, hrs]
    · rcases hrs : rulesScan compile cat₀ rp all rules₀ c with ⟨o, c₁⟩
      cases o with
      | none => simp [categoriesScan, hrs]
      | some fs₁ =>
        have := ih c₁ catrules r h hr hnone
        rcases hrec : categoriesScan compile rp all rest c₁ with ⟨o₂, c₂⟩
        rw [hrec] at this
        simp only at this
        subst this
        simp [categoriesScan, hrs, hrec]

theorem scanFile_fails (compile : CompileFn) (reg : Registry) (e : FileEntry) (c : Nat)
    (lines : List String) (hc : e.content = some lines)
    (catrules : String × List Rule) (r : Rule) (hm : catrules ∈ reg) (hr : r ∈ catrules.2)
    (hnone : compile r.pattern = none) : (scanFile compile reg e c).1 = none := by
  have := categoriesScan_fails compile e.relPath lines reg c catrules r hm hr hnone
  rcases hcs : categoriesScan compile e.relPath lines reg c with ⟨o, c₁⟩
  rw [hcs] at this
  simp only at this
  subst this
  simp [scanFile, hc, hcs]

/-- C7 (amended): a registry rule whose pattern fails to compile is not
detected when the registry is built; instead, during scanning the compile
error raised inside `scan_file` is swallowed by the per-file `except:
continue`, so each file with readable content is silently skipped — all its
findings, including those of valid rules, are discarded while
`files_scanned` still counts it — and scanning proceeds to produce a
report. -/
theorem bad_pattern_skips_file_silently (compile : CompileFn) (reg : Registry)
    (e : FileEntry) (acc : ScanAcc) (c : Nat) (lines : List String)
    (catrules : String × List Rule) (r : Rule)
    (hc : e.content = some lines) (hm : catrules ∈ reg) (hr : r ∈ catrules.2)
    (hnone : compile r.pattern = none) :
    (scanFile compile reg e c).1 = none ∧
    (scanFileStep compile reg acc e).findings = acc.findings ∧
    (scanFileStep compile reg acc e).filesScanned = acc.filesScanned + 1 := by
  refine ⟨scanFile_fails compile reg e c lines hc catrules r hm hr hnone, ?_, ?_⟩ <;>
  · have hsf := scanFile_fails compile reg e acc.counter lines hc catrules r hm hr hnone
    rcases h : scanFile compile reg e acc.counter with ⟨o, c'⟩
    rw [h] at hsf
    simp only at hsf
    subst hsf
    simp [scanFileStep, hc, h]

theorem bad_pattern_skips_file_silently_witness :
    ((⟨"a.js", ".js", some ["pw"], none⟩ : FileEntry).content = some ["pw"] ∧
      c7Entry ∈ c7Reg ∧ c7BadRule ∈ c7Entry.2 ∧ c7Compile c7BadRule.pattern = none) ∧
    ((scanFile c7Compile c7Reg ⟨"a.js", ".js", some ["pw"], none⟩ 0).1 = none ∧
      (scanFileStep c7Compile c7Reg ⟨[], 0, 0, 0⟩
          ⟨"a.js", ".js", some ["pw"], none⟩).findings = [] ∧
      (scanFileStep c7Compile c7Reg ⟨[], 0, 0, 0⟩
          ⟨"a.js", ".js", some ["pw"], none⟩).filesScanned = 0 + 1) :=
  ⟨⟨rfl, by decide, by decide, rfl⟩,
   bad_pattern_skips_file_silently c7Compile c7Reg ⟨"a.js", ".js", some ["pw"], none⟩
     ⟨[], 0, 0, 0⟩ 0 ["pw"] c7Entry c7BadRule rfl (by decide) (by decide) rfl⟩

/-- C7 counterexample: with a registry containing a non-compiling pattern
and another rule that matches the scanned file, the scan still returns a
report — no configuration error before scanning — with the file counted but
all its findings silently dropped. -/
theorem bad_pattern_still_reports :
    c7Compile "bad" = none ∧
    searchHit demoMatcher "pw" = true ∧
    (scan extensions c7Compile c7Reg "p" c7Proj 0 0 initState).map
        (fun x => x.2.findings) = some [] ∧
    (scan extensions c7Compile c7Reg "p" c7Proj 0 0 initState).map
        (fun x => x.2.files_scanned) = some 1 :=
  ⟨rfl, by decide, by decide, by decide⟩

/-! ### Syntax errors skip only the AST pass (C9) -/

/-- C9 (amended, first half): for a `.py` file whose content fails to parse
(`SyntaxError`), the structural pass contributes zero findings while the
findings of the textual scanner for the same file are exactly preserved:
`scan_file` returns just the textual result.  The totality half of the
original claim is false — see the counterexample below. -/
theorem syntax_error_keeps_textual_findings (compile : CompileFn) (reg : Registry)
    (rp : String) (lines : List String) (c : Nat) :
    scanFile compile reg ⟨rp, ".py", some lines, none⟩ c =
      categoriesScan compile rp lines reg c := by
  simp only [scanFile]
  rcases h : categoriesScan compile rp lines reg c with ⟨o, c₁⟩
  cases o <;> simp [analyzePyAst]

/-- C9 counterexample: with a valid root and one matching file, a present
`requirements.txt` whose read raises makes `scan` raise too — no report is
returned — while the identical project without that manifest scans fine.
The `read_text` at line 459 has no handler and the `scan_dependencies` call
at line 540 sits outside any `try`. -/
theorem scan_raises_on_unreadable_requirements :
    c9Proj.requirementsTxt = some none ∧
    scan extensions demoCompile demoReg "p" c9Proj 0 0 initState = none ∧
    (scan extensions demoCompile demoReg "p" c9ProjOk 0 0 initState).isSome = true :=
  ⟨rfl, by decide, by decide⟩

/-! ### One finding per matching rule per line (C8) -/

theorem ruleLineScan_countP (m : Matcher) (cat : String) (r : Rule) (rp : String)
    (all : List String) (i : Nat) :
    ∀ (rest : List String) (i₀ c : Nat),
    ((ruleLineScan m cat r rp all rest i₀ c).1.countP (fun f => f.line_number == i)) =
      if i₀ ≤ i ∧ i - i₀ < rest.length ∧ searchHit m (rest.getD (i - i₀) "") = true
      then 1 else 0 := by
  intro rest
  induction rest with
  | nil =>
    intro i₀ c
    simp [ruleLineScan]
  | cons line rest ih =>
    intro i₀ c
    simp only [ruleLineScan]
    by_cases hhit : searchHit m line = true
    · rw [if_pos hhit]
      rcases hrec : ruleLineScan m cat r rp all rest (i₀ + 1) (c + 1) with ⟨fs, c'⟩
      have hih := ih (i₀ + 1) (c + 1)
      rw [hrec] at hih
      simp only at hih
      simp only [hrec, List.countP_cons]
      rw [hih]
      by_cases heq : i₀ = i
      · subst heq
        rw [if_neg (fun h => absurd h.1 (Nat.lt_irrefl i₀))]
        simp [textualFinding, hhit]
      · have hne : ((textualFinding cat r rp all i₀ (c + 1)).line_number == i) = false := by
          simp [textualFinding, heq]
        simp only [hne, Bool.false_eq_true, if_false, Nat.add_zero]
        by_cases hle : i₀ < i
        · have hsub : i - i₀ = (i - (i₀ + 1)) + 1 := by omega
          rw [hsub, List.getD_cons_succ]
          have hiff : (i₀ + 1 ≤ i ∧ i - (i₀ + 1) < rest.length ∧
                searchHit m (rest.getD (i - (i₀ + 1)) "") = true) ↔
              (i₀ ≤ i ∧ i - (i₀ + 1) + 1 < (line :: rest).length ∧
                searchHit m (rest.getD (i - (i₀ + 1)) "") = true) := by
            constructor
            · rintro ⟨a, b, cc⟩
              exact ⟨by omega, by simp only [List.length_cons]; omega, cc⟩
            · rintro ⟨a, b, cc⟩
              simp only [List.length_cons] at b
              exact ⟨by omega, by omega, cc⟩
          exact if_congr hiff rfl rfl
        · rw [if_neg (fun h => absurd h.1 (by omega)),
              if_neg (fun h => absurd h.1 (by omega))]
    · rw [if_neg hhit]
      have hih := ih (i₀ + 1) c
      rw [hih]
      by_cases heq : i₀ = i
      · subst heq
        rw [if_neg (fun h => absurd h.1 (by omega)),
            if_neg (fun h => hhit (by simpa using h.2.2))]
      · by_cases hle : i₀ < i
        · have hsub : i - i₀ = (i - (i₀ + 1)) + 1 := by omega
          rw [hsub, List.getD_cons_succ]
          have hiff : (i₀ + 1 ≤ i ∧ i - (i₀ + 1) < rest.length ∧
                searchHit m (rest.getD (i - (i₀ + 1)) "") = true) ↔
              (i₀ ≤ i ∧ i - (i₀ + 1) + 1 < (line :: rest).length ∧
                searchHit m (rest.getD (i - (i₀ + 1)) "") = true) := by
            constructor
            · rintro ⟨a, b, cc⟩; exact ⟨by omega, by simpa using by omega, cc⟩
            · rintro ⟨a, b, cc⟩; refine ⟨by omega, by simp at b; omega, cc⟩
          exact if_congr hiff rfl rfl
        · rw [if_neg (fun h => absurd h.1 (by omega)),
              if_neg (fun h => absurd h.1 (by omega))]

theorem rulesScan_countP (compile : CompileFn) (cat rp : String) (lines : List String)
    (i : Nat) (hi : 1 ≤ i) (hlen : i - 1 < lines.length) :
    ∀ (rs : List Rule) (c : Nat), (∀ r ∈ rs, (compile r.pattern).isSome = true) →
    (((rulesScan compile cat rp lines rs c).1.getD []).countP
        (fun f => f.line_number == i)) =
      (rs.filter (fun r => ruleHits compile r (lines.getD (i - 1) ""))).length := by
  intro rs
  induction rs with
  | nil => intro c _; simp [rulesScan]
  | cons r rs ih =>
    intro c h
    obtain ⟨m, hm⟩ := Option.isSome_iff_exists.mp (h r (List.mem_cons_self r rs))
    rcases hrl : ruleLineScan m cat r rp lines lines 1 c with ⟨fs₁, c₁⟩
    obtain ⟨gs, c₂, heq, -⟩ := rulesScan_idseq compile cat rp lines rs c₁
      (fun x hx => h x (List.mem_cons_of_mem r hx))
    simp only [rulesScan, hm, hrl, heq, Option.getD_some]
    rw [List.countP_append]
    have h1 := ruleLineScan_countP m cat r rp lines i lines 1 c
    rw [hrl] at h1
    simp only at h1
    have h2 := ih c₁ (fun x hx => h x (List.mem_cons_of_mem r hx))
    rw [heq] at h2
    simp only [Option.getD_some] at h2
    rw [h1, h2, List.filter_cons]
    have hrh : ruleHits compile r (lines.getD (i - 1) "") =
        searchHit m (lines.getD (i - 1) "") := by
      unfold ruleHits
      rw [hm]
    by_cases hq : searchHit m (lines.getD (i - 1) "") = true
    · rw [if_pos ⟨hi, by omega, hq⟩, if_pos (by rw [hrh]; exact hq)]
      simp [Nat.add_comm]
    · rw [if_neg (fun hh => hq hh.2.2), if_neg (by rw [hrh]; exact hq)]
      simp

theorem categoriesScan_countP (compile : CompileFn) (rp : String) (lines : List String)
    (i : Nat) (hi : 1 ≤ i) (hlen : i - 1 < lines.length) :
    ∀ (reg : Registry) (c : Nat), AllCompile compile reg →
    (((categoriesScan compile rp lines reg c).1.getD []).countP
        (fun f => f.line_number == i)) =
      matchingRuleCount compile reg (lines.getD (i - 1) "") := by
  intro reg
  induction reg with
  | nil => intro c _; simp [categoriesScan, matchingRuleCount]
  | cons cr rest ih =>
    intro c hcomp
    rcases cr with ⟨cat, rules⟩
    have hrules := hcomp (cat, rules) (List.mem_cons_self _ _)
    obtain ⟨fs₁, c₁, heq₁, -⟩ := rulesScan_idseq compile cat rp lines rules c hrules
    obtain ⟨gs, c₂, heq₂, -⟩ := categoriesScan_idseq compile rp lines rest c₁
      (fun x hx => hcomp x (List.mem_cons_of_mem _ hx))
    simp only [categoriesScan, heq₁, heq₂, Option.getD_some]
    rw [List.countP_append]
    have h1 := rulesScan_countP compile cat rp lines i hi hlen rules c hrules
    rw [heq₁] at h1
    simp only [Option.getD_some] at h1
    have h2 := ih c₁ (fun x hx => hcomp x (List.mem_cons_of_mem _ hx))
    rw [heq₂] at h2
    simp only [Option.getD_some] at h2
    rw [h1, h2]
    simp [matchingRuleCount]

/-- C8: for every file, line and well-formed registry, a rule whose pattern
matches a line contributes exactly one finding for that line however many
times it matches within the line (`re.search` is used as a boolean), and
`k` distinct matching rules contribute `k` independent findings: the number
of textual findings at line `i` equals the number of registry rules whose
pattern matches that line. -/
theorem one_finding_per_rule_per_line (compile : CompileFn) (reg : Registry)
    (rp : String) (lines : List String) (i c : Nat) (hcomp : AllCompile compile reg)
    (hi : 1 ≤ i) (hlen : i - 1 < lines.length) :
    (((categoriesScan compile rp lines reg c).1.getD []).countP
        (fun f => f.line_number == i)) =
      matchingRuleCount compile reg (lines.getD (i - 1) "") :=
  categoriesScan_countP compile rp lines i hi hlen reg c hcomp

theorem one_finding_per_rule_per_line_witness :
    (AllCompile c8Compile c8Reg ∧ 1 ≤ 1 ∧ 1 - 1 < c8Lines.length) ∧
    (((categoriesScan c8Compile "f.js" c8Lines c8Reg 0).1.getD []).countP
        (fun f => f.line_number == 1)) =
      matchingRuleCount c8Compile c8Reg (c8Lines.getD 0 "") :=
  ⟨⟨by decide, by decide, by decide⟩,
   one_finding_per_rule_per_line c8Compile c8Reg "f.js" c8Lines 1 0
     (by decide) (by decide) (by decide)⟩

/-! ### Dependency scanner shape (C10) -/

theorem reqScan_mem (reqLines : List String) :
    ∀ (tbl : List (String × String × Severity)) (c : Nat) (f : Finding),
    f ∈ (reqScan reqLines tbl c).1 →
    f.line_number = 1 ∧ f.file_path = "requirements.txt" ∧ f.category = "dependencies" := by
  intro tbl
  induction tbl with
  | nil => intro c f hf; simp [reqScan] at hf
  | cons e rest ih =>
    intro c f hf
    rcases e with ⟨vp, title, sev⟩
    simp only [reqScan] at hf
    by_cases hm : reqLineMatch vp reqLines = true
    · rw [if_pos hm] at hf
      rcases hrec : reqScan reqLines rest (c + 1) with ⟨fs, c'⟩
      rw [hrec] at hf
      simp only [List.mem_cons] at hf
      rcases hf with hf | hf
      · subst hf; exact ⟨rfl, rfl, rfl⟩
      · have := ih (c + 1) f
        rw [hrec] at this
        exact this hf
    · rw [if_neg hm] at hf
      exact ih c f hf

theorem reqScan_title_count (reqLines : List String) (t : String) :
    ∀ (tbl : List (String × String × Severity)) (c : Nat),
    ((reqScan reqLines tbl c).1.countP (fun f => f.title == t)) ≤
      (tbl.filter (fun e => e.2.1 == t)).length := by
  intro tbl
  induction tbl with
  | nil => intro c; simp [reqScan]
  | cons e rest ih =>
    intro c
    rcases e with ⟨vp, title, sev⟩
    simp only [reqScan]
    rw [List.filter_cons]
    by_cases hm : reqLineMatch vp reqLines = true
    · rw [if_pos hm]
      rcases hrec : reqScan reqLines rest (c + 1) with ⟨fs, c'⟩
      have hr := ih (c + 1)
      rw [hrec] at hr
      simp only at hr
      have hpf : ((fun f => f.title == t) (reqFinding vp title sev (c + 1))) = (title == t) :=
        rfl
      simp only [hrec, List.countP_cons, hpf]
      by_cases ht : (title == t) = true
      · simp only [ht, if_true, List.length_cons]
        omega
      · rw [Bool.not_eq_true] at ht
        simp only [ht, Bool.false_eq_true, if_false, Nat.add_zero]
        exact hr
    · rw [if_neg hm]
      refine (ih c).trans ?_
      split <;> simp

theorem scanDependencies_decomp (p : Project) (c : Nat) :
    ∃ rf pf c₁, ((scanDependencies p c).1.getD []) = rf ++ pf ∧
      (∀ f ∈ rf, f.line_number = 1 ∧ f.file_path = "requirements.txt" ∧
        f.category = "dependencies") ∧
      (∀ t, (rf.countP (fun f => f.title == t)) ≤
        (vulnerablePackages.filter (fun e => e.2.1 == t)).length) ∧
      (pf = [] ∨ pf = [lodashFinding c₁]) ∧
      (p.packageJson = some none → pf = []) := by
  rcases hr : p.requirementsTxt with _ | or
  · rcases hp : p.packageJson with _ | op
    · exact ⟨[], [], 0, by simp [scanDependencies, pkgScan, hr, hp], by simp, by simp,
        Or.inl rfl, fun _ => rfl⟩
    · rcases op with _ | deps
      · exact ⟨[], [], 0, by simp [scanDependencies, pkgScan, hr, hp], by simp, by simp,
          Or.inl rfl, fun _ => rfl⟩
      · by_cases hld : "lodash" ∈ deps
        · refine ⟨[], [lodashFinding (c + 1)], c + 1,
            by simp [scanDependencies, pkgScan, hr, hp, hld], by simp, by simp,
            Or.inr rfl, ?_⟩
          intro h
          simp at h
        · refine ⟨[], [], 0, ?_, by simp, by simp, Or.inl rfl, fun _ => rfl⟩
          simp [scanDependencies, pkgScan, hr, hp, hld]
  · rcases or with _ | reqLines
    · exact ⟨[], [], 0, by simp [scanDependencies, hr], by simp, by simp,
        Or.inl rfl, fun _ => rfl⟩
    · rcases hscan : reqScan reqLines vulnerablePackages c with ⟨rf, c₁⟩
      have hmem : ∀ f ∈ rf, f.line_number = 1 ∧ f.file_path = "requirements.txt" ∧
          f.category = "dependencies" := by
        intro f hf
        have := reqScan_mem reqLines vulnerablePackages c f
        rw [hscan] at this
        exact this hf
      have hcnt : ∀ t, (rf.countP (fun f => f.title == t)) ≤
          (vulnerablePackages.filter (fun e => e.2.1 == t)).length := by
        intro t
        have := reqScan_title_count reqLines t vulnerablePackages c
        rw [hscan] at this
        simpa using this
      rcases hp : p.packageJson with _ | op
      · exact ⟨rf, [], 0, by simp [scanDependencies, pkgScan, hr, hp, hscan], hmem, hcnt,
          Or.inl rfl, fun _ => rfl⟩
      · rcases op with _ | deps
        · exact ⟨rf, [], 0, by simp [scanDependencies, pkgScan, hr, hp, hscan], hmem,
            hcnt, Or.inl rfl, fun _ => rfl⟩
        · by_cases hld : "lodash" ∈ deps
          · refine ⟨rf, [lodashFinding (c₁ + 1)], c₁ + 1,
              by simp [scanDependencies, pkgScan, hr, hp, hscan, hld], hmem, hcnt,
              Or.inr rfl, ?_⟩
            intro h
            simp at h
          · exact ⟨rf, [], 0, by simp [scanDependencies, pkgScan, hr, hp, hscan, hld],
              hmem, hcnt, Or.inl rfl, fun _ => rfl⟩

/-- C10: every dependency finding carries `line_number = 1` and the relative
path of the manifest that produced it (`requirements.txt` or
`package.json`); each entry of the static vulnerable-package table
contributes at most one finding per scan, however many manifest lines match
it; and a malformed `package.json` is swallowed, contributing no dependency
finding. -/
theorem dependency_findings_shape (p : Project) (c : Nat) :
    (∀ f ∈ ((scanDependencies p c).1.getD []),
        f.line_number = 1 ∧ f.category = "dependencies" ∧
          (f.file_path = "requirements.txt" ∨ f.file_path = "package.json")) ∧
    (∀ e ∈ vulnerablePackages,
        (((scanDependencies p c).1.getD []).countP (fun f => f.title == e.2.1)) ≤ 1) ∧
    (p.packageJson = some none →
        ∀ f ∈ ((scanDependencies p c).1.getD []), f.file_path ≠ "package.json") := by
  obtain ⟨rf, pf, c₁, hdec, hmem, hcount, hpf, hmal⟩ := scanDependencies_decomp p c
  refine ⟨?_, ?_, ?_⟩
  · intro f hf
    rw [hdec] at hf
    rcases List.mem_append.mp hf with h | h
    · obtain ⟨h1, h2, h3⟩ := hmem f h
      exact ⟨h1, h3, Or.inl h2⟩
    · rcases hpf with rfl | rfl
      · simp at h
      · simp only [List.mem_singleton] at h
        subst h
        exact ⟨rfl, rfl, Or.inr rfl⟩
  · intro e he
    rw [hdec, List.countP_append]
    have h3 : pf.countP (fun f => f.title == e.2.1) = 0 := by
      rcases hpf with rfl | rfl
      · rfl
      · have hlod : ∀ x ∈ vulnerablePackages,
            (("Check Lodash Version" : String) == x.2.1) = false := by decide
        have hl := hlod e he
        simp [List.countP_cons, lodashFinding, hl]
    have h2 : (vulnerablePackages.filter (fun y => y.2.1 == e.2.1)).length = 1 := by
      have hall : ∀ x ∈ vulnerablePackages,
          (vulnerablePackages.filter (fun y => y.2.1 == x.2.1)).length = 1 := by decide
      exact hall e he
    have h1 := hcount e.2.1
    omega
  · intro hmalf f hf
    rw [hdec, hmal hmalf, List.append_nil] at hf
    have := (hmem f hf).2.1
    rw [this]
    decide

theorem dependency_findings_shape_witness :
    (c10Found ∈ ((scanDependencies c10Proj 0).1.getD []) ∧
      ("django<3.2", "Django Security Update Required", Severity.high) ∈
        vulnerablePackages ∧
      c10Proj.packageJson = some none) ∧
    ((c10Found.line_number = 1 ∧ c10Found.category = "dependencies" ∧
        (c10Found.file_path = "requirements.txt" ∨ c10Found.file_path = "package.json")) ∧
      (((scanDependencies c10Proj 0).1.getD []).countP
          (fun f => f.title == "Django Security Update Required")) ≤ 1 ∧
      ∀ f ∈ ((scanDependencies c10Proj 0).1.getD []), f.file_path ≠ "package.json") :=
  ⟨⟨by decide, by decide, rfl⟩,
   (dependency_findings_shape c10Proj 0).1 c10Found (by decide),
   (dependency_findings_shape c10Proj 0).2.1
     ("django<3.2", "Django Security Update Required", Severity.high) (by decide),
   (dependency_findings_shape c10Proj 0).2.2 rfl⟩

end NullForge
